import Mathlib

/-!
A verification development for the UN-Comtrade-Download repository
(file `UN_Comtrade.py`).  The parameter-normalization and country-code
resolution pipeline is embedded shallowly:

* Python values that can flow through `transform_reporter` /
  `transform_partner` / `transform_tradeflow` are modelled by `PyVal`
  (an int or a string; `np.int64` collapses into the int case).
* The country lookup table (the pandas dataframe read from
  `{role}Areas.csv`, index column `id`, text column `text`) is modelled
  by `List Row`.
* The interactive console (`input(...)`) is modelled by a function
  `Nat → String` giving the response to the n-th prompt of a resolution
  call; a raised `LookupError` becomes `Except.error c` where `c` is the
  country string interpolated into the error message.
* `pandas.Series.str.contains` is modelled as plain substring
  containment; for patterns without regex metacharacters this is exactly
  the pandas behaviour (pandas treats the pattern as a regex, but a
  literal pattern matches precisely where it occurs as a substring).
* Python `str.lower` / `str.isdigit` / `str.split` are modelled on ASCII
  character lists (`py_lower`, `py_isdigit`, `py_split`).
-/

/-- Test whether the first character list is a leading segment of the
second one (both read left to right). -/
def startsWithChars : List Char → List Char → Bool
  | [], _ => true
  | _ :: _, [] => false
  | a :: as, b :: bs => a == b && startsWithChars as bs

/-- Test whether `needle` occurs as a contiguous run inside `hay`. -/
def containsChars (needle : List Char) : List Char → Bool
  | [] => startsWithChars needle []
  | b :: bs => startsWithChars needle (b :: bs) || containsChars needle bs

/-- Python `needle in hay` on strings: substring containment. -/
def strContains (hay needle : String) : Bool :=
  containsChars needle.toList hay.toList

/-- ASCII lower-casing of a character, as Python `str.lower` acts on the
strings appearing here. -/
def lowerChar (c : Char) : Char :=
  if 'A' ≤ c && c ≤ 'Z' then Char.ofNat (c.toNat + 32) else c

/-- Python `s.lower()`. -/
def py_lower (s : String) : String :=
  String.mk (s.toList.map lowerChar)

/-- Python `s.isdigit()`: nonempty and every character a digit. -/
def py_isdigit (s : String) : Bool :=
  !s.isEmpty && s.toList.all Char.isDigit

/-- Helper for `py_split`: `acc` holds the characters of the current
piece in reverse order. -/
def py_split_acc (sep : Char) : List Char → List Char → List (List Char)
  | acc, [] => [acc.reverse]
  | acc, c :: rest =>
    if c == sep then acc.reverse :: py_split_acc sep [] rest
    else py_split_acc sep (c :: acc) rest

/-- Python `s.split(sep)` for a one-character separator: splitting a
string with n occurrences of `sep` yields n+1 pieces. -/
def py_split (s : String) (sep : Char) : List String :=
  (py_split_acc sep [] s.toList).map String.mk

/-- A Python value reaching the normalizer: an int (`np.int64` included)
or a string. -/
inductive PyVal where
  | intV (n : Int)
  | strV (s : String)
deriving DecidableEq, Repr

/-- The reporter/partner argument of `download_trade_data`: a scalar or
a list (`reporter = [reporter] if not isinstance(reporter, list) else
reporter`). -/
inductive PyInput where
  | scalar (v : PyVal)
  | listV (vs : List PyVal)
deriving DecidableEq, Repr

/-- One row of the cached `{role}Areas.csv` lookup table: the index
entry `id` and the display name `text`. -/
structure Row where
  id : Int
  text : String
deriving DecidableEq, Repr, Inhabited

/-- `transform_tradeflow` (UN_Comtrade.py lines 153-160):
replace a string containing "export" by 2, else one containing "import"
by 1; any other value passes through unchanged. -/
def transform_tradeflow (tradeflow : PyVal) : PyVal :=
  match tradeflow with
  | PyVal.strV s =>
    if strContains (py_lower s) "export" then PyVal.intV 2
    else if strContains (py_lower s) "import" then PyVal.intV 1
    else PyVal.strV s
  | PyVal.intV n => PyVal.intV n

/-- `is_country_code` (UN_Comtrade.py lines 185-193): a string is a code
when it is the case-insensitive literal "all" or all digits; any other
value is a code exactly when it is an int (`int` or `np.int64`). -/
def is_country_code (inpt : PyVal) : Bool :=
  match inpt with
  | PyVal.strV s => py_lower s == "all" || py_isdigit s
  | PyVal.intV _ => true

/-- One step of building a Python dict by insertion: an existing key has
its value overwritten in place, a new key is appended. -/
def dict_update (acc : List (Int × String)) (kv : Int × String) :
    List (Int × String) :=
  if acc.any (fun p => p.1 == kv.1) then
    acc.map (fun p => if p.1 == kv.1 then kv else p)
  else acc ++ [kv]

/-- Python dict construction from a key-value sequence
(`df[mask2].text.to_dict()`): insertion order of the first occurrence of
each key, last value per key wins. -/
def to_dict (l : List (Int × String)) : List (Int × String) :=
  l.foldl dict_update []

/-- The candidate loop of `find_country_code` (UN_Comtrade.py lines
239-245): `for code, country in dict_matches.items()` asks the console
about each candidate in order and returns the first code confirmed with
"y"; note that the loop variable `country` shadows the argument, so the
`LookupError` raised after an exhausted loop names the text of the last
candidate shown.  `i` is the index of the next prompt. -/
def askCandidates : List (Int × String) → (Nat → String) → Nat → String →
    Except String Int
  | [], _, _, country => Except.error country
  | (code, ctry) :: rest, resp, i, _ =>
    if resp i == "y" then Except.ok code
    else askCandidates rest resp (i + 1) ctry

/-- `find_country_code` (UN_Comtrade.py lines 209-245).  The lookup
table `df` and the console `resp` are explicit arguments; the lazy
download of the csv file is outside the embedding (the claims all start
from a loaded table).  `mask` is the exact-match filter
`df.text == country`; when exactly one row matches its index entry is
returned (`df.index[mask].tolist()[0]`).  Otherwise `mask2` is the
partial-match filter `df.text.str.contains(country)` and the candidate
dict is walked by `askCandidates`; the final `raise LookupError`
becomes `Except.error`. -/
def find_country_code (country : String) (df : List Row)
    (resp : Nat → String) : Except String Int :=
  let mask := df.filter (fun r => r.text == country)
  if mask.length = 1 then
    Except.ok mask.headI.id
  else
    let mask2 := df.filter (fun r => strContains r.text country)
    askCandidates (to_dict (mask2.map (fun r => (r.id, r.text)))) resp 0 country

/-- `find_reporter_code` (UN_Comtrade.py lines 196-200). -/
def find_reporter_code (country : String) (df : List Row)
    (resp : Nat → String) : Except String Int :=
  find_country_code country df resp

/-- `find_partner_code` (UN_Comtrade.py lines 202-206). -/
def find_partner_code (country : String) (df : List Row)
    (resp : Nat → String) : Except String Int :=
  find_country_code country df resp

/-- The element-wise body of the list comprehension in
`transform_reporter` / `transform_partner`
(`[r if is_country_code(r) else find_reporter_code(r) for r in reporter]`):
a valid code passes through, any other element (necessarily a string,
since every int is a code) is resolved.  A raised `LookupError` aborts
the comprehension, hence the `Except` threading.  Element `k` of the
list reads its console responses from `resps k`. -/
def transform_elems (df : List Row) (resps : Nat → Nat → String) :
    Nat → List PyVal → Except String (List PyVal)
  | _, [] => Except.ok []
  | k, v :: rest =>
    match (if is_country_code v then Except.ok v
           else match v with
                | PyVal.strV s =>
                  Except.map PyVal.intV (find_reporter_code s df (resps k))
                | PyVal.intV n => Except.ok (PyVal.intV n)) with
    | Except.error e => Except.error e
    | Except.ok w =>
      match transform_elems df resps (k + 1) rest with
      | Except.error e => Except.error e
      | Except.ok ws => Except.ok (w :: ws)

/-- `transform_reporter` (UN_Comtrade.py lines 139-144): wrap a scalar
into a one-element list, then resolve every element that is not already
a valid code. -/
def transform_reporter (reporter : PyInput) (df : List Row)
    (resps : Nat → Nat → String) : Except String (List PyVal) :=
  let l := match reporter with
    | PyInput.scalar v => [v]
    | PyInput.listV vs => vs
  transform_elems df resps 0 l

/-- `transform_partner` (UN_Comtrade.py lines 146-151): identical to
`transform_reporter` once the role lookup table is an argument. -/
def transform_partner (partner : PyInput) (df : List Row)
    (resps : Nat → Nat → String) : Except String (List PyVal) :=
  let l := match partner with
    | PyInput.scalar v => [v]
    | PyInput.listV vs => vs
  transform_elems df resps 0 l

/-- The filename adjustment in `download_trade_data` (UN_Comtrade.py
line 66): `filename if len(filename.split('.')) == 2 else filename +
'.csv'`. -/
def fix_filename (filename : String) : String :=
  if (py_split filename '.').length = 2 then filename
  else filename ++ ".csv"

/-! ## Basic lemmas about the string and dict helpers -/

theorem startsWithChars_refl (l : List Char) : startsWithChars l l = true := by
  induction l with
  | nil => rfl
  | cons a as ih => simp [startsWithChars, ih]

theorem containsChars_self (l : List Char) : containsChars l l = true := by
  cases l with
  | nil => rfl
  | cons a as => simp [containsChars, startsWithChars_refl]

theorem strContains_self (s : String) : strContains s s = true :=
  containsChars_self s.toList

theorem dict_update_of_not_mem (acc : List (Int × String)) (kv : Int × String)
    (h : ∀ q, q ∈ acc → kv.1 ≠ q.1) : dict_update acc kv = acc ++ [kv] := by
  have hnot : ¬(acc.any fun p => p.1 == kv.1) = true := by
    simp only [List.any_eq_true]
    rintro ⟨q, hq, he⟩
    exact h q hq (Eq.symm (by simpa using he))
  simp [dict_update, hnot]

theorem foldl_dict_update_of_disjoint (l : List (Int × String)) :
    ∀ acc : List (Int × String), (l.map Prod.fst).Nodup →
      (∀ p, p ∈ l → ∀ q, q ∈ acc → p.1 ≠ q.1) →
      l.foldl dict_update acc = acc ++ l := by
  induction l with
  | nil => intro acc _ _; simp
  | cons kv l ih =>
    intro acc hnodup hdisj
    have hd : ∀ p, p ∈ l → ∀ q, q ∈ acc ++ [kv] → p.1 ≠ q.1 := by
      intro p hp q hq
      rcases List.mem_append.mp hq with hq1 | hq2
      · exact hdisj p (List.mem_cons_of_mem kv hp) q hq1
      · have hqkv : q = kv := by simpa using hq2
        intro he
        have hpk : Prod.fst p = kv.1 := by rw [he, hqkv]
        have hmem : kv.1 ∈ l.map Prod.fst := List.mem_map.mpr ⟨p, hp, hpk⟩
        exact (List.nodup_cons.mp (by simpa using hnodup)).1 hmem
    rw [List.foldl_cons,
        dict_update_of_not_mem acc kv
          (fun q hq => hdisj kv (List.mem_cons_self kv l) q hq),
        ih (acc ++ [kv]) (by simpa using hnodup.of_cons) hd]
    simp

theorem to_dict_of_nodup (l : List (Int × String))
    (h : (l.map Prod.fst).Nodup) : to_dict l = l := by
  have := foldl_dict_update_of_disjoint l [] h (fun p _ q hq => absurd hq (by simp))
  simpa [to_dict] using this

/-! ## Lemmas about the interactive candidate loop -/

theorem askCandidates_error_iff (cands : List (Int × String)) :
    ∀ (resp : Nat → String) (i : Nat) (c0 : String),
      (∃ e, askCandidates cands resp i c0 = Except.error e) ↔
        ∀ j, j < cands.length → resp (i + j) ≠ "y" := by
  induction cands with
  | nil =>
    intro resp i c0
    simp [askCandidates]
  | cons hd tl ih =>
    intro resp i c0
    obtain ⟨code, ctry⟩ := hd
    by_cases hy : resp i = "y"
    · constructor
      · rintro ⟨e, he⟩
        simp [askCandidates, hy] at he
      · intro hall
        exact absurd hy (by simpa using hall 0 (Nat.succ_pos _))
    · rw [show askCandidates ((code, ctry) :: tl) resp i c0
            = askCandidates tl resp (i + 1) ctry by simp [askCandidates, hy]]
      rw [ih resp (i + 1) ctry]
      constructor
      · intro h j hj
        cases j with
        | zero => simpa using hy
        | succ j =>
          have hj2 : j < tl.length := by simpa using hj
          have := h j hj2
          have harith : i + 1 + j = i + (j + 1) := by omega
          rwa [harith] at this
      · intro h j hj
        have := h (j + 1) (by simpa using Nat.succ_lt_succ hj)
        have harith : i + (j + 1) = i + 1 + j := by omega
        rwa [harith] at this

theorem askCandidates_first_y (cands : List (Int × String)) :
    ∀ (resp : Nat → String) (i : Nat) (c0 : String) (j : Nat)
      (hj : j < cands.length),
      resp (i + j) = "y" → (∀ k, k < j → resp (i + k) ≠ "y") →
      askCandidates cands resp i c0 = Except.ok (cands.get ⟨j, hj⟩).1 := by
  induction cands with
  | nil => intro resp i c0 j hj _ _; simp at hj
  | cons hd tl ih =>
    intro resp i c0 j hj hy hfirst
    obtain ⟨code, ctry⟩ := hd
    cases j with
    | zero =>
      have hy0 : resp i = "y" := by simpa using hy
      simp [askCandidates, hy0]
    | succ j =>
      have h0 : resp i ≠ "y" := by simpa using hfirst 0 (Nat.succ_pos _)
      rw [show askCandidates ((code, ctry) :: tl) resp i c0
            = askCandidates tl resp (i + 1) ctry by simp [askCandidates, h0]]
      have hj2 : j < tl.length := by simpa using hj
      have hy2 : resp (i + 1 + j) = "y" := by
        have harith : i + 1 + j = i + (j + 1) := by omega
        rwa [harith]
      have hf2 : ∀ k, k < j → resp (i + 1 + k) ≠ "y" := by
        intro k hk
        have harith : i + 1 + k = i + (k + 1) := by omega
        rw [harith]
        exact hfirst (k + 1) (by omega)
      rw [ih resp (i + 1) ctry j hj2 hy2 hf2]
      rfl

theorem askCandidates_ok_inv (cands : List (Int × String)) :
    ∀ (resp : Nat → String) (i : Nat) (c0 : String) (c : Int),
      askCandidates cands resp i c0 = Except.ok c →
      ∃ j, ∃ hj : j < cands.length,
        resp (i + j) = "y" ∧ (cands.get ⟨j, hj⟩).1 = c := by
  induction cands with
  | nil => intro resp i c0 c h; simp [askCandidates] at h
  | cons hd tl ih =>
    intro resp i c0 c h
    obtain ⟨code, ctry⟩ := hd
    by_cases hy : resp i = "y"
    · have hc : code = c := by simpa [askCandidates, hy] using h
      exact ⟨0, Nat.succ_pos _, by simpa using hy, by simpa using hc⟩
    · rw [show askCandidates ((code, ctry) :: tl) resp i c0
            = askCandidates tl resp (i + 1) ctry by simp [askCandidates, hy]] at h
      obtain ⟨j, hj, h1, h2⟩ := ih resp (i + 1) ctry c h
      refine ⟨j + 1, by simpa using Nat.succ_lt_succ hj, ?_, by simpa using h2⟩
      have harith : i + (j + 1) = i + 1 + j := by omega
      rwa [harith]

theorem askCandidates_error_last (cands : List (Int × String)) :
    ∀ (resp : Nat → String) (i : Nat) (c0 : String),
      (∀ j, j < cands.length → resp (i + j) ≠ "y") →
      ∀ h : cands ≠ [],
        askCandidates cands resp i c0 = Except.error ((cands.getLast h).2) := by
  induction cands with
  | nil => intro resp i c0 _ h; exact absurd rfl h
  | cons hd tl ih =>
    intro resp i c0 hall h
    obtain ⟨code, ctry⟩ := hd
    have h0 : resp i ≠ "y" := by simpa using hall 0 (Nat.succ_pos _)
    rw [show askCandidates ((code, ctry) :: tl) resp i c0
          = askCandidates tl resp (i + 1) ctry by simp [askCandidates, h0]]
    cases tl with
    | nil => simp [askCandidates, List.getLast]
    | cons hd2 tl2 =>
      have hall2 : ∀ j, j < (hd2 :: tl2).length → resp (i + 1 + j) ≠ "y" := by
        intro j hj
        have harith : i + 1 + j = i + (j + 1) := by omega
        rw [harith]
        exact hall (j + 1) (by simpa using Nat.succ_lt_succ hj)
      rw [ih resp (i + 1) ctry hall2 (by simp)]
      rw [List.getLast_cons_cons]

/-! ## Unfolding lemmas for the resolver -/

theorem find_country_code_of_exact (country : String) (df : List Row)
    (resp : Nat → String) (r : Row)
    (h : (df.filter fun rr => rr.text == country) = [r]) :
    find_country_code country df resp = Except.ok r.id := by
  have hlen : (df.filter fun rr => rr.text == country).length = 1 := by simp [h]
  simp only [find_country_code]
  rw [if_pos hlen, h]
  rfl

theorem find_country_code_of_ne_one (country : String) (df : List Row)
    (resp : Nat → String)
    (h : (df.filter fun rr => rr.text == country).length ≠ 1) :
    find_country_code country df resp =
      askCandidates
        (to_dict ((df.filter fun r => strContains r.text country).map
          fun r => (r.id, r.text))) resp 0 country := by
  simp only [find_country_code]
  rw [if_neg h]

theorem filter_pair_fst_nodup (df : List Row) (p : Row → Bool)
    (h : (df.map Row.id).Nodup) :
    (((df.filter p).map fun r => (r.id, r.text)).map Prod.fst).Nodup := by
  have heq : ((df.filter p).map fun r => (r.id, r.text)).map Prod.fst
      = (df.filter p).map Row.id := by
    rw [List.map_map]
    rfl
  rw [heq]
  exact h.sublist ((List.filter_sublist df).map Row.id)

/-! ## Characterization of the normalizer comprehension -/

theorem transform_elems_ok_spec (df : List Row) (resps : Nat → Nat → String) :
    ∀ (l : List PyVal) (k : Nat) (out : List PyVal),
      transform_elems df resps k l = Except.ok out →
      out.length = l.length ∧
      ∀ (i : Nat) (h : i < l.length) (h2 : i < out.length),
        (is_country_code (l.get ⟨i, h⟩) = true →
          out.get ⟨i, h2⟩ = l.get ⟨i, h⟩) ∧
        (is_country_code (l.get ⟨i, h⟩) = false →
          ∃ s c, l.get ⟨i, h⟩ = PyVal.strV s ∧
            find_country_code s df (resps (k + i)) = Except.ok c ∧
            out.get ⟨i, h2⟩ = PyVal.intV c) := by
  intro l
  induction l with
  | nil =>
    intro k out h
    have hout : out = [] := by simpa [transform_elems] using h.symm
    subst hout
    exact ⟨rfl, fun i hi => by simp at hi⟩
  | cons v rest ih =>
    intro k out h
    by_cases hv : is_country_code v = true
    · rw [show transform_elems df resps k (v :: rest)
            = (match transform_elems df resps (k + 1) rest with
               | Except.error e => Except.error e
               | Except.ok ws => Except.ok (v :: ws)) by
          simp [transform_elems, hv]] at h
      cases hrest : transform_elems df resps (k + 1) rest with
      | error e => rw [hrest] at h; cases h
      | ok ws =>
        rw [hrest] at h
        have hout : out = v :: ws := by simpa using h.symm
        subst hout
        obtain ⟨hlen, hidx⟩ := ih (k + 1) ws hrest
        refine ⟨by simpa using hlen, ?_⟩
        intro i hi h2
        cases i with
        | zero =>
          exact ⟨fun _ => rfl, fun hfalse => Bool.noConfusion (hv.symm.trans hfalse)⟩
        | succ i =>
          have hi2 : i < rest.length := by simpa using hi
          have h22 : i < ws.length := by simpa using h2
          obtain ⟨ht, hf⟩ := hidx i hi2 h22
          refine ⟨ht, ?_⟩
          intro hfalse
          obtain ⟨s, c, h1, h2c, h3⟩ := hf hfalse
          refine ⟨s, c, h1, ?_, h3⟩
          have harith : k + 1 + i = k + (i + 1) := by omega
          rwa [harith] at h2c
    · have hv2 : is_country_code v = false := by
        cases hb : is_country_code v
        · rfl
        · exact absurd hb hv
      cases v with
      | intV n => rw [is_country_code] at hv2; cases hv2
      | strV s =>
        rw [show transform_elems df resps k (PyVal.strV s :: rest)
              = (match Except.map PyVal.intV (find_reporter_code s df (resps k)) with
                 | Except.error e => Except.error e
                 | Except.ok w =>
                   match transform_elems df resps (k + 1) rest with
                   | Except.error e => Except.error e
                   | Except.ok ws => Except.ok (w :: ws)) by
            simp [transform_elems, hv2]] at h
        cases hfind : find_country_code s df (resps k) with
        | error e =>
          rw [show find_reporter_code s df (resps k) = Except.error e from hfind] at h
          cases h
        | ok c =>
          rw [show find_reporter_code s df (resps k) = Except.ok c from hfind] at h
          simp only [Except.map] at h
          cases hrest : transform_elems df resps (k + 1) rest with
          | error e => rw [hrest] at h; cases h
          | ok ws =>
            rw [hrest] at h
            have hout : out = PyVal.intV c :: ws := by simpa using h.symm
            subst hout
            obtain ⟨hlen, hidx⟩ := ih (k + 1) ws hrest
            refine ⟨by simpa using hlen, ?_⟩
            intro i hi h2
            cases i with
            | zero =>
              refine ⟨fun htrue => ?_, fun _ => ⟨s, c, rfl, ?_, rfl⟩⟩
              · rw [show (PyVal.strV s :: rest).get ⟨0, hi⟩ = PyVal.strV s from rfl,
                    hv2] at htrue
                cases htrue
              · simpa using hfind
            | succ i =>
              have hi2 : i < rest.length := by simpa using hi
              have h22 : i < ws.length := by simpa using h2
              obtain ⟨ht, hf⟩ := hidx i hi2 h22
              refine ⟨ht, ?_⟩
              intro hfalse
              obtain ⟨s2, c2, h1, h2c, h3⟩ := hf hfalse
              refine ⟨s2, c2, h1, ?_, h3⟩
              have harith : k + 1 + i = k + (i + 1) := by omega
              rwa [harith] at h2c

theorem transform_elems_valid (df : List Row) (resps : Nat → Nat → String) :
    ∀ (l : List PyVal) (k : Nat) (out : List PyVal),
      transform_elems df resps k l = Except.ok out →
      ∀ w, w ∈ out → is_country_code w = true := by
  intro l
  induction l with
  | nil =>
    intro k out h w hw
    have hout : out = [] := by simpa [transform_elems] using h.symm
    subst hout
    simp at hw
  | cons v rest ih =>
    intro k out h w hw
    by_cases hv : is_country_code v = true
    · rw [show transform_elems df resps k (v :: rest)
            = (match transform_elems df resps (k + 1) rest with
               | Except.error e => Except.error e
               | Except.ok ws => Except.ok (v :: ws)) by
          simp [transform_elems, hv]] at h
      cases hrest : transform_elems df resps (k + 1) rest with
      | error e => rw [hrest] at h; cases h
      | ok ws =>
        rw [hrest] at h
        have hout : out = v :: ws := by simpa using h.symm
        subst hout
        rcases List.mem_cons.mp hw with hw1 | hw2
        · rw [hw1]; exact hv
        · exact ih (k + 1) ws hrest w hw2
    · have hv2 : is_country_code v = false := by
        cases hb : is_country_code v
        · rfl
        · exact absurd hb hv
      cases v with
      | intV n => rw [is_country_code] at hv2; cases hv2
      | strV s =>
        rw [show transform_elems df resps k (PyVal.strV s :: rest)
              = (match Except.map PyVal.intV (find_reporter_code s df (resps k)) with
                 | Except.error e => Except.error e
                 | Except.ok w =>
                   match transform_elems df resps (k + 1) rest with
                   | Except.error e => Except.error e
                   | Except.ok ws => Except.ok (w :: ws)) by
            simp [transform_elems, hv2]] at h
        cases hfind : find_country_code s df (resps k) with
        | error e =>
          rw [show find_reporter_code s df (resps k) = Except.error e from hfind] at h
          cases h
        | ok c =>
          rw [show find_reporter_code s df (resps k) = Except.ok c from hfind] at h
          simp only [Except.map] at h
          cases hrest : transform_elems df resps (k + 1) rest with
          | error e => rw [hrest] at h; cases h
          | ok ws =>
            rw [hrest] at h
            have hout : out = PyVal.intV c :: ws := by simpa using h.symm
            subst hout
            rcases List.mem_cons.mp hw with hw1 | hw2
            · rw [hw1]; rfl
            · exact ih (k + 1) ws hrest w hw2

/-! ## Claim theorems -/

/-- C1, counterexample: the claim states that every string containing
"import" (any case) is mapped to 1, but the string "importexport"
contains "import" and is mapped to 2, because the source checks
"export" first (`if ... elif ...`). -/
theorem transform_tradeflow_import_cex :
    strContains (py_lower "importexport") "import" = true ∧
    transform_tradeflow (PyVal.strV "importexport") ≠ PyVal.intV 1 := by
  constructor
  · decide
  · decide

/-- C1 (amended): a string containing "export" in any case maps to 2; a
string containing "import" but not "export" in any case maps to 1; a
string containing neither, and any non-string value, passes through
unchanged. -/
theorem transform_tradeflow_spec :
    (∀ s, strContains (py_lower s) "export" = true →
      transform_tradeflow (PyVal.strV s) = PyVal.intV 2)
  ∧ (∀ s, strContains (py_lower s) "export" = false →
      strContains (py_lower s) "import" = true →
      transform_tradeflow (PyVal.strV s) = PyVal.intV 1)
  ∧ (∀ s, strContains (py_lower s) "export" = false →
      strContains (py_lower s) "import" = false →
      transform_tradeflow (PyVal.strV s) = PyVal.strV s)
  ∧ (∀ n : Int, transform_tradeflow (PyVal.intV n) = PyVal.intV n) := by
  refine ⟨?_, ?_, ?_, fun n => rfl⟩
  · intro s hexp
    simp [transform_tradeflow, hexp]
  · intro s hexp himp
    simp [transform_tradeflow, hexp, himp]
  · intro s hexp himp
    simp [transform_tradeflow, hexp, himp]

/-- C1, witness: "Imports" contains "import" but not "export" and is
mapped to 1 by `transform_tradeflow`. -/
theorem transform_tradeflow_spec_witness :
    transform_tradeflow (PyVal.strV "Imports") = PyVal.intV 1 :=
  transform_tradeflow_spec.2.1 "Imports" (by decide) (by decide)

/-- C4: when exactly one table row's display name equals the input
case-sensitively, `find_country_code` returns that row's code, for every
behaviour of the interactive channel (it is never consulted). -/
theorem find_country_code_exact_unique (df : List Row) (country : String)
    (h : (df.filter fun r => r.text == country).length = 1)
    (resp : Nat → String) :
    ∃ r : Row, (df.filter fun rr => rr.text == country) = [r] ∧
      r.text = country ∧
      find_country_code country df resp = Except.ok r.id := by
  obtain ⟨r, hr⟩ := List.length_eq_one.mp h
  refine ⟨r, hr, ?_, find_country_code_of_exact country df resp r hr⟩
  have hmem : r ∈ df.filter fun rr => rr.text == country := by
    rw [hr]; exact List.mem_singleton_self r
  simpa using (List.mem_filter.mp hmem).2

/-- C4, witness: on the one-row table with code 842 and text "USA",
resolving "USA" returns 842 (with a channel that never answers "y"). -/
theorem find_country_code_exact_unique_witness :
    find_country_code "USA" [⟨842, "USA"⟩] (fun _ => "n") = Except.ok 842 := by
  obtain ⟨r, hr, -, hfind⟩ :=
    find_country_code_exact_unique [⟨842, "USA"⟩] "USA" (by decide) (fun _ => "n")
  have h0 : (([⟨842, "USA"⟩] : List Row).filter fun rr => rr.text == "USA")
      = [⟨842, "USA"⟩] := by decide
  have hr2 : (⟨842, "USA"⟩ : Row) = r := by
    have := h0.symm.trans hr
    simpa using this
  rw [← hr2] at hfind
  exact hfind

/-- C6: the partial-match step asks whether the table text contains the
query, not the reverse: with the single row (1, "Bolivia") and the query
"Bolivia (Plurinational State of)", the exact filter is empty, the
partial filter is empty (even though the query does contain "Bolivia"),
and the call fails naming the query string — for every channel. -/
theorem find_country_code_substr_direction :
    ∀ resp : Nat → String,
      (([⟨1, "Bolivia"⟩] : List Row).filter
        fun r => r.text == "Bolivia (Plurinational State of)") = []
    ∧ (([⟨1, "Bolivia"⟩] : List Row).filter
        fun r => strContains r.text "Bolivia (Plurinational State of)") = []
    ∧ strContains "Bolivia (Plurinational State of)" "Bolivia" = true
    ∧ find_country_code "Bolivia (Plurinational State of)" [⟨1, "Bolivia"⟩] resp
        = Except.error "Bolivia (Plurinational State of)" := by
  intro resp
  exact ⟨by decide, by decide, by decide, rfl⟩

/-- C10: `download_trade_data` leaves the output filename unchanged
exactly when splitting it on the dot yields two pieces (one dot); any
other name gets ".csv" appended — "data" becomes "data.csv", but
"my.data.csv" becomes "my.data.csv.csv". -/
theorem fix_filename_spec :
    ∀ f : String,
      (fix_filename f = f ↔ (py_split f '.').length = 2)
    ∧ ((py_split f '.').length ≠ 2 → fix_filename f = f ++ ".csv")
    ∧ fix_filename "data" = "data.csv"
    ∧ fix_filename "my.data.csv" = "my.data.csv.csv"
    ∧ fix_filename "data.csv" = "data.csv" := by
  intro f
  refine ⟨⟨?_, ?_⟩, ?_, by decide, by decide, by decide⟩
  · intro heq
    by_contra hne
    rw [show fix_filename f = f ++ ".csv" by simp [fix_filename, hne]] at heq
    have hlen := congrArg String.length heq
    rw [String.length_append] at hlen
    simp at hlen
    exact absurd hlen (by decide)
  · intro h2
    simp [fix_filename, h2]
  · intro h2
    simp [fix_filename, h2]

/-- C10, witness: "my.data.csv" splits into three pieces, so ".csv" is
appended. -/
theorem fix_filename_spec_witness :
    fix_filename "my.data.csv" = "my.data.csv" ++ ".csv" :=
  (fix_filename_spec "my.data.csv").2.1 (by decide)

/-- C2: with a duplicate-free table, `find_country_code` fails with the
NotFound error exactly when there is no unique exact match and no
partial-match candidate is confirmed with "y"; in particular it fails
when zero rows contain the input (the quantifier is vacuous) and when
every response is non-affirmative. -/
theorem find_country_code_notfound_iff (df : List Row) (country : String)
    (resp : Nat → String) (hnodup : (df.map Row.id).Nodup) :
    (∃ e, find_country_code country df resp = Except.error e) ↔
      ((df.filter fun r => r.text == country).length ≠ 1 ∧
        ∀ i, i < (df.filter fun r => strContains r.text country).length →
          resp i ≠ "y") := by
  by_cases h1 : (df.filter fun r => r.text == country).length = 1
  · obtain ⟨r, hr⟩ := List.length_eq_one.mp h1
    rw [find_country_code_of_exact country df resp r hr]
    simp [h1]
  · rw [find_country_code_of_ne_one country df resp h1,
        to_dict_of_nodup _ (filter_pair_fst_nodup df _ hnodup),
        askCandidates_error_iff]
    simp [h1]

/-- C2, witness: no row equals "Korea" exactly and the channel always
answers "n", so resolution ends in the NotFound error. -/
theorem find_country_code_notfound_iff_witness :
    ∃ e, find_country_code "Korea"
      [⟨410, "Republic of Korea"⟩, ⟨408, "Korea Dem Rep"⟩] (fun _ => "n")
      = Except.error e :=
  (find_country_code_notfound_iff
    [⟨410, "Republic of Korea"⟩, ⟨408, "Korea Dem Rep"⟩] "Korea" (fun _ => "n")
    (by decide)).mpr ⟨by decide, by decide⟩

/-- C5: when the exact match is not unique, the partial-match candidates
are offered in table order and the code of the first candidate answered
"y" is returned. -/
theorem find_country_code_first_confirmed (df : List Row) (country : String)
    (resp : Nat → String) (j : Nat)
    (hnodup : (df.map Row.id).Nodup)
    (h1 : (df.filter fun r => r.text == country).length ≠ 1)
    (hj : j < (df.filter fun r => strContains r.text country).length)
    (hy : resp j = "y")
    (hfirst : ∀ i, i < j → resp i ≠ "y") :
    find_country_code country df resp =
      Except.ok
        (((df.filter fun r => strContains r.text country).get ⟨j, hj⟩).id) := by
  rw [find_country_code_of_ne_one country df resp h1,
      to_dict_of_nodup _ (filter_pair_fst_nodup df _ hnodup)]
  have hj2 : j < ((df.filter fun r => strContains r.text country).map
      fun r => (r.id, r.text)).length := by simpa using hj
  rw [askCandidates_first_y _ resp 0 country j hj2 (by simpa using hy)
      (fun k hk => by simpa using hfirst k hk)]
  congr 1
  simp [List.get_eq_getElem, List.getElem_map]

/-- C5, witness: two rows contain "Korea", the channel confirms only the
second prompt, and the second row's code 408 is returned. -/
theorem find_country_code_first_confirmed_witness :
    find_country_code "Korea"
      [⟨410, "Republic of Korea"⟩, ⟨408, "Korea Dem Rep"⟩]
      (fun i => if i == 1 then "y" else "n") = Except.ok 408 := by
  have h := find_country_code_first_confirmed
      [⟨410, "Republic of Korea"⟩, ⟨408, "Korea Dem Rep"⟩] "Korea"
      (fun i => if i == 1 then "y" else "n") 1
      (by decide) (by decide) (by decide) (by decide)
      (by decide)
  exact h

/-- C8: when two or more rows match the input exactly (duplicate display
names), no code is returned directly: every duplicate also appears among
the partial-match candidates (a string contains itself), any code that
is returned was confirmed with "y" at some prompt, and if no prompt is
confirmed the call raises the NotFound error. -/
theorem find_country_code_dup_exact (df : List Row) (country : String)
    (resp : Nat → String)
    (hnodup : (df.map Row.id).Nodup)
    (hdup : 2 ≤ (df.filter fun r => r.text == country).length) :
    (∀ r, r ∈ (df.filter fun rr => rr.text == country) →
      r ∈ (df.filter fun rr => strContains rr.text country))
  ∧ (∀ c : Int, find_country_code country df resp = Except.ok c →
      ∃ j, ∃ hj : j < (df.filter fun r => strContains r.text country).length,
        resp j = "y" ∧
        ((df.filter fun r => strContains r.text country).get ⟨j, hj⟩).id = c)
  ∧ ((∀ i, i < (df.filter fun r => strContains r.text country).length →
        resp i ≠ "y") →
      ∃ e, find_country_code country df resp = Except.error e) := by
  have h1 : (df.filter fun r => r.text == country).length ≠ 1 := by omega
  refine ⟨?_, ?_, ?_⟩
  · intro r hr
    obtain ⟨hmem, htext⟩ := List.mem_filter.mp hr
    refine List.mem_filter.mpr ⟨hmem, ?_⟩
    have ht : r.text = country := by simpa using htext
    simpa [ht] using strContains_self country
  · intro c hc
    rw [find_country_code_of_ne_one country df resp h1,
        to_dict_of_nodup _ (filter_pair_fst_nodup df _ hnodup)] at hc
    obtain ⟨j, hj, hy, hid⟩ := askCandidates_ok_inv _ resp 0 country c hc
    refine ⟨j, by simpa using hj, by simpa using hy, ?_⟩
    rw [← hid]
    simp [List.get_eq_getElem, List.getElem_map]
  · intro hall
    rw [find_country_code_of_ne_one country df resp h1,
        to_dict_of_nodup _ (filter_pair_fst_nodup df _ hnodup),
        askCandidates_error_iff]
    intro j hj
    simpa using hall j (by simpa using hj)

/-- C8, witness: a table with two rows both named "Korea" and an
all-"n" channel ends in the NotFound error instead of silently picking
one duplicate. -/
theorem find_country_code_dup_exact_witness :
    ∃ e, find_country_code "Korea" [⟨1, "Korea"⟩, ⟨2, "Korea"⟩] (fun _ => "n")
      = Except.error e :=
  (find_country_code_dup_exact [⟨1, "Korea"⟩, ⟨2, "Korea"⟩] "Korea"
    (fun _ => "n") (by decide) (by decide)).2.2 (by decide)

/-- C9: because the candidate loop rebinds the variable holding the
input name, a failure after unconfirmed candidates names the last shown
candidate's display text; the original input is named only when there
were no candidates at all. -/
theorem find_country_code_error_naming (df : List Row) (country : String)
    (resp : Nat → String)
    (hnodup : (df.map Row.id).Nodup)
    (h1 : (df.filter fun r => r.text == country).length ≠ 1) :
    ((df.filter fun r => strContains r.text country) = [] →
      find_country_code country df resp = Except.error country)
  ∧ (∀ hne : (df.filter fun r => strContains r.text country) ≠ [],
      (∀ i, i < (df.filter fun r => strContains r.text country).length →
        resp i ≠ "y") →
      find_country_code country df resp =
        Except.error
          (((df.filter fun r => strContains r.text country).getLast hne).text)) := by
  constructor
  · intro hempty
    rw [find_country_code_of_ne_one country df resp h1, hempty]
    rfl
  · intro hne hall
    rw [find_country_code_of_ne_one country df resp h1,
        to_dict_of_nodup _ (filter_pair_fst_nodup df _ hnodup)]
    have hne2 : ((df.filter fun r => strContains r.text country).map
        fun r => (r.id, r.text)) ≠ [] := by simpa using hne
    rw [askCandidates_error_last _ resp 0 country
        (fun j hj => by simpa using hall j (by simpa using hj)) hne2]
    congr 1
    rw [List.getLast_map]

/-- C9, witness: with candidates "Republic of Korea" then
"Korea Dem Rep" and no confirmation, the error names "Korea Dem Rep",
the last candidate, not the input "Korea". -/
theorem find_country_code_error_naming_witness :
    find_country_code "Korea"
      [⟨410, "Republic of Korea"⟩, ⟨408, "Korea Dem Rep"⟩] (fun _ => "n")
      = Except.error "Korea Dem Rep" := by
  have h := (find_country_code_error_naming
      [⟨410, "Republic of Korea"⟩, ⟨408, "Korea Dem Rep"⟩] "Korea"
      (fun _ => "n") (by decide) (by decide)).2 (by decide) (by decide)
  exact h

/-- C3: a scalar is wrapped into a one-element list; partner
normalization is the same function as reporter normalization; on
success the output list has the input's length, keeps valid codes
(int, digit-string, case-insensitive "all") unchanged at their
positions for every table and channel, and replaces every other element
by the resolver's code for it; in particular ["USA", 124] with the
one-row USA table yields [842, 124]. -/
theorem transform_reporter_spec (df : List Row) (resps : Nat → Nat → String)
    (v : PyVal) (inp : PyInput) (l out : List PyVal) :
    transform_reporter (PyInput.scalar v) df resps
      = transform_reporter (PyInput.listV [v]) df resps
  ∧ transform_partner inp df resps = transform_reporter inp df resps
  ∧ (transform_reporter (PyInput.listV l) df resps = Except.ok out →
      out.length = l.length ∧
      ∀ (i : Nat) (h : i < l.length) (h2 : i < out.length),
        (is_country_code (l.get ⟨i, h⟩) = true →
          out.get ⟨i, h2⟩ = l.get ⟨i, h⟩) ∧
        (is_country_code (l.get ⟨i, h⟩) = false →
          ∃ s c, l.get ⟨i, h⟩ = PyVal.strV s ∧
            find_country_code s df (resps i) = Except.ok c ∧
            out.get ⟨i, h2⟩ = PyVal.intV c))
  ∧ transform_reporter (PyInput.listV [PyVal.strV "USA", PyVal.intV 124])
      [⟨842, "USA"⟩] (fun _ _ => "n")
      = Except.ok [PyVal.intV 842, PyVal.intV 124] := by
  refine ⟨rfl, ?_, ?_, rfl⟩
  · cases inp with
    | scalar v2 => rfl
    | listV vs => rfl
  · intro h
    obtain ⟨hlen, hidx⟩ := transform_elems_ok_spec df resps l 0 out h
    refine ⟨hlen, ?_⟩
    intro i hi h2
    obtain ⟨ht, hf⟩ := hidx i hi h2
    refine ⟨ht, ?_⟩
    intro hfalse
    obtain ⟨s, c, hs, hc, ho⟩ := hf hfalse
    exact ⟨s, c, hs, by simpa using hc, ho⟩

/-- C3, witness: ["USA", 124] over the one-row USA table gives a list
of the same length, namely [842, 124]. -/
theorem transform_reporter_spec_witness :
    ([PyVal.intV 842, PyVal.intV 124] : List PyVal).length
      = ([PyVal.strV "USA", PyVal.intV 124] : List PyVal).length
  ∧ transform_reporter (PyInput.listV [PyVal.strV "USA", PyVal.intV 124])
      [⟨842, "USA"⟩] (fun _ _ => "n")
      = Except.ok [PyVal.intV 842, PyVal.intV 124] := by
  have h := transform_reporter_spec [⟨842, "USA"⟩] (fun _ _ => "n")
      (PyVal.intV 0) (PyInput.scalar (PyVal.intV 0))
      [PyVal.strV "USA", PyVal.intV 124] [PyVal.intV 842, PyVal.intV 124]
  exact ⟨(h.2.2.1 rfl).1, h.2.2.2⟩

/-- C7: every element of a successful reporter or partner normalization
is the literal "all" or passes the is-valid-code check: free text never
reaches the output, it is always replaced by a resolved numeric code. -/
theorem transform_output_tokens_valid (df : List Row)
    (resps : Nat → Nat → String) (inp : PyInput) (out : List PyVal) :
    (transform_reporter inp df resps = Except.ok out →
      ∀ w, w ∈ out → (w = PyVal.strV "all" ∨ is_country_code w = true))
  ∧ (transform_partner inp df resps = Except.ok out →
      ∀ w, w ∈ out → (w = PyVal.strV "all" ∨ is_country_code w = true)) := by
  constructor
  · intro h w hw
    cases inp with
    | scalar v => exact Or.inr (transform_elems_valid df resps [v] 0 out h w hw)
    | listV vs => exact Or.inr (transform_elems_valid df resps vs 0 out h w hw)
  · intro h w hw
    cases inp with
    | scalar v => exact Or.inr (transform_elems_valid df resps [v] 0 out h w hw)
    | listV vs => exact Or.inr (transform_elems_valid df resps vs 0 out h w hw)

/-- C7, witness: the normalized ["USA", 124] output consists solely of
valid codes. -/
theorem transform_output_tokens_valid_witness :
    ∀ w, w ∈ ([PyVal.intV 842, PyVal.intV 124] : List PyVal) →
      (w = PyVal.strV "all" ∨ is_country_code w = true) :=
  (transform_output_tokens_valid [⟨842, "USA"⟩] (fun _ _ => "n")
    (PyInput.listV [PyVal.strV "USA", PyVal.intV 124])
    [PyVal.intV 842, PyVal.intV 124]).1 rfl
